import Mathlib

/-!
Verification of the event-windowing pipeline of
src/standalone_samples/evs_2ms_logger/evs_2ms_logger.cpp.

The C++ program ingests sensor events, buckets them into fixed 2000 us
windows in a consumer thread, optionally persists each finalized window's
events to a per-window text file, and exposes camera/recording/bias
commands.  The definitions below are a shallow embedding of that code:
each definition is annotated with the source lines it embeds.
-/

set_option autoImplicit false

namespace Evs2msLogger

/-- Source line 42: constexpr Metavision::timestamp kWindowUs = 2000. -/
def kWindowUs : Int := 2000

/-- Source line 43: constexpr std::size_t kMaxQueueSize = 200. -/
def kMaxQueueSize : Nat := 200

/-- A Metavision CD event: pixel coordinates and a signed 64-bit timestamp
(Metavision::EventCD fields x, y, t used by the program). -/
structure EventCD where
  x : Nat
  y : Nat
  t : Int
deriving DecidableEq

/-- The live frame buffer, cv::Mat(height, width, CV_8UC1): a list of
`height` rows, each of `width` pixels; `true` models intensity 255. -/
abbrev Frame := List (List Bool)

/-- Number of columns of the frame (cv::Mat::cols). -/
def frameWidth (f : Frame) : Nat :=
  match f with
  | [] => 0
  | r :: _ => r.length

/-- Number of rows of the frame (cv::Mat::rows). -/
def frameHeight (f : Frame) : Nat := f.length

/-- Source line 731: cv::Mat(height, width, CV_8UC1, cv::Scalar(0)). -/
def mkFrame (h w : Nat) : Frame := List.replicate h (List.replicate w false)

/-- Source line 777: current_frame.setTo(0) clears all pixels, keeping shape. -/
def clearFrame (f : Frame) : Frame := f.map (fun r => r.map (fun _ => false))

/-- Read one pixel (out-of-range reads default to false; the embedded code
only writes in range, which is part of what we prove). -/
def getPix (f : Frame) (y x : Nat) : Bool := (f.getD y []).getD x false

/-- Write one pixel at row y, column x (cv::Mat::at(y, x) = 255). -/
def setPix (f : Frame) (y x : Nat) : Frame :=
  f.set y ((f.getD y []).set x true)

/-- Source lines 782-784: the guarded pixel write
if (ev.x < current_frame.cols and ev.y < current_frame.rows) write. -/
def writePixel (f : Frame) (e : EventCD) : Frame :=
  if e.x < frameWidth f ∧ e.y < frameHeight f then setPix f e.y e.x else f

/-- One "x y" pair, as produced for one line of a persisted window file
(source line 753: out << evt.x << " " << evt.y << "\n"). -/
def lineOf (e : EventCD) : Nat × Nat := (e.x, e.y)

/-- A persisted window file (source lines 746-755): directory, the
pre-incremented recording frame index, the window start timestamp, and
one (x, y) line per recorded event of the window. -/
structure OutputFile where
  dir : String
  index : Nat
  t0 : Int
  lines : List (Nat × Nat)
deriving DecidableEq

/-- Left-pad the decimal rendering of n with zeros to 6 characters
(std::setw(6) with std::setfill('0'), source line 749). -/
def pad6 (n : Nat) : String :=
  let s := toString n
  String.mk (List.replicate (6 - s.length) '0') ++ s

/-- The full path of a persisted window file, as assembled at source
lines 748-750. -/
def filePath (f : OutputFile) : String :=
  f.dir ++ "/frame_" ++ pad6 f.index ++ "_t0_" ++ toString f.t0 ++ "us.txt"

/-- The (directory, index, window-start) triple that determines the path. -/
def filePathKey (f : OutputFile) : String × Nat × Int := (f.dir, f.index, f.t0)

/-- Everything the consumer emits when it finalizes one window (source
lines 738-772): the printed frame counter, the window start, the frame
snapshot handed to latest_frame, the window's recorded event list, and
the persisted file if one was written. -/
structure Finalized where
  frame_index : Nat
  t0 : Int
  frame : Frame
  events : List EventCD
  file : Option OutputFile
deriving DecidableEq

/-- The consumer thread's window-accumulator state: its local variables
(source lines 685-691) together with the shared flags and strings that
the loop reads (recording_enabled, output_dir, camera_width/height). -/
structure CState where
  window_start : Option Int
  window_end : Int
  window_events : List EventCD
  current_frame : Frame
  frame_index : Nat
  recording_frame_index : Nat
  window_recording : Bool
  recording_enabled : Bool
  output_dir : String
  camera_width : Nat
  camera_height : Nat
deriving DecidableEq

/-- The consumer's local state at thread start (source lines 685-691),
with the given geometry, output directory and recording flag. -/
def initCState (w h : Nat) (dir : String) (rec : Bool) : CState :=
  { window_start := none, window_end := 0, window_events := [],
    current_frame := [], frame_index := 0, recording_frame_index := 0,
    window_recording := false, recording_enabled := rec, output_dir := dir,
    camera_width := w, camera_height := h }

/-- One iteration of the window-finalization while-loop body (source
lines 738-780, minus the loop condition): write the file if the window
was recording and a directory is set, snapshot the frame, advance the
window by kWindowUs, clear the buffer and event list, and resample the
recording flag from recording_enabled. -/
def finalizeStep (s : CState) : CState × List Finalized :=
  let fi : Option OutputFile × Nat :=
    match s.window_start with
    | none => (none, s.recording_frame_index)
    | some st =>
      if s.window_recording = true ∧ s.output_dir ≠ "" then
        (some { dir := s.output_dir, index := s.recording_frame_index + 1,
                t0 := st, lines := s.window_events.map lineOf },
         s.recording_frame_index + 1)
      else (none, s.recording_frame_index)
  let outs : List Finalized :=
    match s.window_start with
    | none => []
    | some st =>
      [{ frame_index := s.frame_index, t0 := st, frame := s.current_frame,
         events := s.window_events, file := fi.1 }]
  ({ s with recording_frame_index := fi.2,
            frame_index := s.frame_index + 1,
            window_start := some s.window_end,
            window_end := s.window_end + kWindowUs,
            current_frame := clearFrame s.current_frame,
            window_events := [],
            window_recording := s.recording_enabled }, outs)

/-- Fuel bound for the finalization loop: the loop runs while
window_end is at most e.t and raises window_end by 2000 each pass, so
(e.t + 1 - window_end) iterations always suffice. -/
def finalizeFuel (e : EventCD) (s : CState) : Nat :=
  (e.t + 1 - s.window_end).toNat

/-- The while (ev.t >= window_end) loop of source line 738, with an
explicit fuel argument to make the recursion structural; finalizeLoop
always supplies sufficient fuel. -/
def finalizeGo (e : EventCD) : Nat → CState → CState × List Finalized
  | 0, s => (s, [])
  | n + 1, s =>
    if s.window_end ≤ e.t then
      let p := finalizeStep s
      let q := finalizeGo e n p.1
      (q.1, p.2 ++ q.2)
    else (s, [])

/-- The while (ev.t >= window_end) finalization loop (source lines
738-780). -/
def finalizeLoop (e : EventCD) (s : CState) : CState × List Finalized :=
  finalizeGo e (finalizeFuel e s) s

/-- Source lines 785-787: append the event to the live window's raw
event list exactly when the window is recording. -/
def appendIfRecording (s : CState) (e : EventCD) : CState :=
  if s.window_recording = true
  then { s with window_events := s.window_events ++ [e] }
  else s

/-- Per-event processing after the window is known to be open: run the
finalization loop, do the guarded pixel write (source lines 782-784),
and append the event to the window's list when recording (source lines
785-787). -/
def processCore (s : CState) (e : EventCD) : CState × List Finalized :=
  let p := finalizeLoop e s
  (appendIfRecording
     { p.1 with current_frame := writePixel p.1.current_frame e } e, p.2)

/-- Full per-event processing (source lines 724-788): if no window is
open, open one at e.t when the geometry is known, otherwise drop the
event; then run processCore. -/
def processEvent (s : CState) (e : EventCD) : CState × List Finalized :=
  match s.window_start with
  | none =>
    if s.camera_width = 0 ∨ s.camera_height = 0 then (s, [])
    else
      processCore
        { s with current_frame := mkFrame s.camera_height s.camera_width,
                 window_events := [],
                 window_start := some e.t,
                 window_end := e.t + kWindowUs,
                 window_recording := s.recording_enabled } e
  | some _ => processCore s e

/-- Fold step threading the state and accumulating finalized windows. -/
def stepE (p : CState × List Finalized) (e : EventCD) : CState × List Finalized :=
  let r := processEvent p.1 e
  (r.1, p.2 ++ r.2)

/-- Process a list of events in order (the for-loop over a chunk at
source line 724), collecting every finalized window. -/
def processEvents (s : CState) (es : List EventCD) : CState × List Finalized :=
  es.foldl stepE (s, [])

/-- Fold step for a list of chunks. -/
def stepChunk (p : CState × List Finalized) (c : List EventCD) :
    CState × List Finalized :=
  let r := processEvents p.1 c
  (r.1, p.2 ++ r.2)

/-- Process a list of chunks in FIFO order, as the consumer loop does
across its iterations (source lines 693-788, with no reset requested and
no concurrent flag change). -/
def processChunks (s : CState) (cs : List (List EventCD)) :
    CState × List Finalized :=
  cs.foldl stepChunk (s, [])

/-- The serialized interactions the consumer observes: a dequeued chunk,
a session reset (source lines 694-700), a recording-counter reset
(source lines 701-703), or a command thread update of the
recording_enabled flag or output directory. -/
inductive ConsumerAction where
  | chunk (c : List EventCD)
  | sessionReset
  | recordingReset
  | setRecording (b : Bool)
  | setOutputDir (d : String)
deriving DecidableEq

/-- Source lines 694-700: the reset block clears the window, releases
the frame and zeroes both frame counters. -/
def resetState (s : CState) : CState :=
  { s with window_start := none, window_events := [], current_frame := [],
           frame_index := 0, recording_frame_index := 0 }

/-- Effect of one consumer-observed action on the accumulator state. -/
def processAction (s : CState) (a : ConsumerAction) : CState × List Finalized :=
  match a with
  | .chunk c => processEvents s c
  | .sessionReset => (resetState s, [])
  | .recordingReset => ({ s with recording_frame_index := 0 }, [])
  | .setRecording b => ({ s with recording_enabled := b }, [])
  | .setOutputDir d => ({ s with output_dir := d }, [])

/-- Fold step for a trace of actions. -/
def stepA (p : CState × List Finalized) (a : ConsumerAction) :
    CState × List Finalized :=
  let r := processAction p.1 a
  (r.1, p.2 ++ r.2)

/-- Process a serialized trace of consumer-observed actions. -/
def processTrace (s : CState) (acts : List ConsumerAction) :
    CState × List Finalized :=
  acts.foldl stepA (s, [])

/-- The persisted files among a list of finalized windows. -/
def filesOf (outs : List Finalized) : List OutputFile :=
  outs.filterMap (fun f => f.file)

/-- All (x, y) lines of a list of files, in order. -/
def fileLines (fs : List OutputFile) : List (Nat × Nat) :=
  (fs.map (fun f => f.lines)).flatten

/-- The lines the live window would persist if finalized now: its event
list when it is recording, nothing otherwise. -/
def recordedLines (s : CState) : List (Nat × Nat) :=
  if s.window_recording = true then s.window_events.map lineOf else []

/-! ## The bounded chunk queue, consumer side (claim C4) -/

/-- The consumer's condition-variable predicate at source line 708:
return not running or queue nonempty. -/
def dequeueWaitDone (running : Bool) (queue : List (List EventCD)) : Bool :=
  !running || !queue.isEmpty

/-- What the consumer does right after the wait returns. -/
inductive DequeueResult where
  | exitLoop
  | retry
  | chunk (c : List EventCD)
deriving DecidableEq

/-- Source lines 709-717: after the wait, break when running is false,
spuriously retry when the queue is empty, else pop the front chunk. -/
def dequeueStep (running : Bool) (queue : List (List EventCD)) :
    DequeueResult × List (List EventCD) :=
  if running = false then (.exitLoop, queue)
  else
    match queue with
    | [] => (.retry, [])
    | c :: rest => (.chunk c, rest)

/-! ## Bias facility (claim C7) -/

/-- The driver-reported description of one bias
(Metavision::LL_Bias_Info as used by the program). -/
structure LL_Bias_Info where
  bias_range : Int × Int
  modifiable : Bool
deriving DecidableEq

/-- The bias facility: the biases it reports, and whether the driver
accepts writes (the return value of I_LL_Biases::set). -/
structure I_LL_Biases where
  infos : List (String × LL_Bias_Info)
  set_ok : Bool
deriving DecidableEq

/-- get_bias_info(name, info) lookup on the facility. -/
def get_bias_info (b : I_LL_Biases) (name : String) : Option LL_Bias_Info :=
  (b.infos.find? (fun p => p.1 == name)).map (fun p => p.2)

/-- Source lines 220-233: report the bias range, normalized so the first
component is the smaller, with (0, 255) as fallback. -/
def bias_range_or_default (b : Option I_LL_Biases) (name : String) : Int × Int :=
  match b with
  | none => (0, 255)
  | some f =>
    match get_bias_info f name with
    | some info =>
      if info.bias_range.1 > info.bias_range.2
      then (info.bias_range.2, info.bias_range.1)
      else info.bias_range
    | none => (0, 255)

/-- Source lines 235-243: clamp value into the closed range. -/
def clamp_bias_value (value : Int) (range : Int × Int) : Int :=
  if value < range.1 then range.1
  else if value > range.2 then range.2
  else value

/-- The distinct outcomes of apply_single_bias. -/
inductive BiasOutcome where
  | noFacility
  | notFound
  | readOnly
  | setFailed
  | applied (v : Int)
deriving DecidableEq

/-- Source lines 305-335: apply_single_bias.  The second component is
the value the driver's set was invoked with, if it was invoked. -/
def apply_single_bias (b : Option I_LL_Biases) (name : String) (value : Int) :
    BiasOutcome × Option Int :=
  match b with
  | none => (.noFacility, none)
  | some f =>
    match get_bias_info f name with
    | none => (.notFound, none)
    | some info =>
      if info.modifiable = false then (.readOnly, none)
      else
        let range := bias_range_or_default (some f) name
        let clamped := clamp_bias_value value range
        if f.set_ok then (.applied clamped, some clamped)
        else (.setFailed, some clamped)

/-! ## Session controller: the open command (claim C1) -/

/-- What the device reports when construction succeeds, plus whether its
start() call throws. -/
structure DeviceModel where
  width : Nat
  height : Nat
  start_throws : Bool
  has_biases : Bool
deriving DecidableEq

/-- The pieces of session state the open command touches (source lines
478-527): the camera_on flag, the stored geometry, the reset request,
the biases pointer and the selected bias name. -/
structure SessionState where
  camera_on : Bool
  camera_width : Nat
  camera_height : Nat
  reset_requested : Bool
  biases_present : Bool
  selected_bias : String
deriving DecidableEq

/-- How the open command terminates. -/
inductive OpenOutcome where
  | alreadyOn
  | openFailed
  | started
  | startThrew
deriving DecidableEq

/-- Source lines 478-527, the case 'o' handler: construction failures
are caught and leave the state untouched; on success the geometry is
stored, camera_on and reset_requested are set, the bias facility is
looked up and the selection cleared, and only then is start() called,
outside any try block, so a throwing start() escapes with all those
mutations already applied. -/
def handle_command_open (openResult : Option DeviceModel) (s : SessionState) :
    SessionState × OpenOutcome :=
  if s.camera_on = true then (s, .alreadyOn)
  else
    match openResult with
    | none => (s, .openFailed)
    | some d =>
      let s1 : SessionState :=
        { camera_on := true, camera_width := d.width, camera_height := d.height,
          reset_requested := true, biases_present := d.has_biases,
          selected_bias := "" }
      if d.start_throws then (s1, .startThrew) else (s1, .started)

/-! ## Recording controller commands (claim C8) -/

/-- The state the recording commands touch (source lines 550-581). -/
structure RecState where
  recording_enabled : Bool
  recording_reset_requested : Bool
  output_dir : String
deriving DecidableEq

/-- How the recording commands terminate. -/
inductive RecOutcome where
  | alreadyOn
  | dirFailed
  | startedRec
  | alreadyOff
  | stoppedRec
deriving DecidableEq

/-- Source lines 550-570, the case 's' handler: rejected when already
recording; if create_directories throws, the handler returns before
output_dir, recording_reset_requested or recording_enabled are touched. -/
def handle_command_start_recording (mkdir_ok : Bool) (new_dir : String)
    (s : RecState) : RecState × RecOutcome :=
  if s.recording_enabled = true then (s, .alreadyOn)
  else if mkdir_ok = false then (s, .dirFailed)
  else ({ recording_enabled := true, recording_reset_requested := true,
          output_dir := new_dir }, .startedRec)

/-- Source lines 572-580, the case 'e' handler: a no-op when recording
is already off. -/
def handle_command_stop_recording (s : RecState) : RecState × RecOutcome :=
  if s.recording_enabled = false then (s, .alreadyOff)
  else ({ s with recording_enabled := false }, .stoppedRec)

/-! ## Concrete inputs used by the example-run and reset scenarios -/

/-- Consumer state right after opening a 4x4 camera, not recording. -/
def exampleInit : CState := initCState 4 4 "" false

/-- The three events of the end-to-end example in the specification. -/
def exampleEvents : List EventCD := [⟨1, 1, 0⟩, ⟨2, 2, 1500⟩, ⟨3, 3, 2500⟩]

/-- Consumer state right after opening a 4x4 camera with recording on
and output directory "out". -/
def resetTraceInit : CState := initCState 4 4 "out" true

/-- A trace that persists one window, then sees a session reset (camera
off and on again) while recording stays enabled, then persists another
window whose file gets the same index and start timestamp. -/
def resetTrace : List ConsumerAction :=
  [ConsumerAction.chunk [⟨1, 1, 0⟩, ⟨1, 1, 2500⟩],
   ConsumerAction.sessionReset,
   ConsumerAction.chunk [⟨2, 2, 0⟩, ⟨2, 2, 2500⟩]]

/-- A consumer state mid-window with recording off: window [0, 2000)
open, empty event list, output directory already set. -/
def toggleInit : CState :=
  { window_start := some 0, window_end := 2000, window_events := [],
    current_frame := mkFrame 4 4, frame_index := 0,
    recording_frame_index := 0, window_recording := false,
    recording_enabled := false, output_dir := "out",
    camera_width := 4, camera_height := 4 }

/-! ## Small list helpers -/

theorem getD_set_of_ne {α : Type} {l : List α} {i j : Nat} (a d : α)
    (h : i ≠ j) : (l.set i a).getD j d = l.getD j d := by
  simp [List.getD_eq_getElem?_getD, List.getElem?_set_ne h]

theorem getD_set_self {α : Type} {l : List α} {i : Nat} (a d : α)
    (h : i < l.length) : (l.set i a).getD i d = a := by
  simp [List.getD_eq_getElem?_getD, List.getElem?_set_self h]

/-! ## Anatomy of one finalization step -/

@[simp] theorem finalizeStep_recording_enabled (s : CState) :
    (finalizeStep s).1.recording_enabled = s.recording_enabled := rfl

@[simp] theorem finalizeStep_output_dir (s : CState) :
    (finalizeStep s).1.output_dir = s.output_dir := rfl

@[simp] theorem finalizeStep_camera_width (s : CState) :
    (finalizeStep s).1.camera_width = s.camera_width := rfl

@[simp] theorem finalizeStep_camera_height (s : CState) :
    (finalizeStep s).1.camera_height = s.camera_height := rfl

@[simp] theorem finalizeStep_window_start (s : CState) :
    (finalizeStep s).1.window_start = some s.window_end := rfl

@[simp] theorem finalizeStep_window_events (s : CState) :
    (finalizeStep s).1.window_events = [] := rfl

@[simp] theorem finalizeStep_window_recording (s : CState) :
    (finalizeStep s).1.window_recording = s.recording_enabled := rfl

@[simp] theorem finalizeStep_window_end (s : CState) :
    (finalizeStep s).1.window_end = s.window_end + kWindowUs := rfl

theorem filesOf_append (a b : List Finalized) :
    filesOf (a ++ b) = filesOf a ++ filesOf b :=
  List.filterMap_append a b _

theorem fileLines_append (a b : List OutputFile) :
    fileLines (a ++ b) = fileLines a ++ fileLines b := by
  simp [fileLines]

/-- Either the finalized window wrote no file and the recording frame
counter is untouched, or it wrote exactly one file carrying the
pre-incremented counter, the window start and the event lines. -/
theorem finalizeStep_file_cases (s : CState) :
    ((finalizeStep s).1.recording_frame_index = s.recording_frame_index
      ∧ filesOf (finalizeStep s).2 = [])
    ∨ ((finalizeStep s).1.recording_frame_index = s.recording_frame_index + 1
      ∧ ∃ st, s.window_start = some st
        ∧ filesOf (finalizeStep s).2
          = [{ dir := s.output_dir, index := s.recording_frame_index + 1,
               t0 := st, lines := s.window_events.map lineOf }]) := by
  rcases hws : s.window_start with _ | st
  · exact Or.inl ⟨by simp [finalizeStep, hws], by simp [finalizeStep, hws, filesOf]⟩
  · by_cases hc : s.window_recording = true ∧ s.output_dir ≠ ""
    · exact Or.inr ⟨by simp [finalizeStep, hws, hc], st, rfl,
        by simp [finalizeStep, hws, hc, filesOf]⟩
    · exact Or.inl ⟨by simp [finalizeStep, hws, hc], by simp [finalizeStep, hws, hc, filesOf]⟩

/-- With a window open and a nonempty output directory, the lines the
finalization step persists are exactly the lines the live window was
due to persist. -/
theorem finalizeStep_lines (s : CState) (hdir : s.output_dir ≠ "")
    (st : Int) (hws : s.window_start = some st) :
    fileLines (filesOf (finalizeStep s).2) = recordedLines s := by
  by_cases hrec : s.window_recording = true
  · simp [finalizeStep, hws, hrec, hdir, filesOf, fileLines, recordedLines]
  · simp [finalizeStep, hws, hrec, filesOf, fileLines, recordedLines]

/-- With a window open, the finalization step emits exactly one
finalized window, with a file exactly when recording with a directory. -/
theorem finalizeStep_outs (s : CState) (st : Int)
    (hws : s.window_start = some st) :
    (finalizeStep s).2
      = [{ frame_index := s.frame_index, t0 := st, frame := s.current_frame,
           events := s.window_events,
           file := if s.window_recording = true ∧ s.output_dir ≠ "" then
               some { dir := s.output_dir,
                      index := s.recording_frame_index + 1,
                      t0 := st, lines := s.window_events.map lineOf }
             else none }] := by
  by_cases hc : s.window_recording = true ∧ s.output_dir ≠ "" <;>
    simp [finalizeStep, hws, hc]

/-- Any file a finalization step emits is well formed: its lines are
the finalized window's events rendered as (x, y) pairs, its timestamp
is the window start, and its directory is the current output_dir. -/
theorem finalizeStep_wf (s : CState) :
    ∀ fin ∈ (finalizeStep s).2, ∀ fl, fin.file = some fl →
      fl.lines = fin.events.map lineOf ∧ fl.t0 = fin.t0
      ∧ fl.dir = s.output_dir := by
  rcases hws : s.window_start with _ | st
  · simp [finalizeStep, hws]
  · intro fin hfin fl hfl
    rw [finalizeStep_outs s st hws] at hfin
    simp only [List.mem_singleton] at hfin
    subst hfin
    by_cases hc : s.window_recording = true ∧ s.output_dir ≠ ""
    · dsimp only at hfl
      rw [if_pos hc] at hfl
      injection hfl with h
      subst h
      exact ⟨rfl, rfl, rfl⟩
    · dsimp only at hfl
      rw [if_neg hc] at hfl
      exact Option.noConfusion hfl

/-! ## The finalization loop -/

theorem finalizeFuel_step (e : EventCD) (s : CState)
    (h : s.window_end ≤ e.t) :
    finalizeFuel e (finalizeStep s).1 + 1 ≤ finalizeFuel e s := by
  simp only [finalizeFuel, finalizeStep_window_end, kWindowUs]
  omega

theorem finalizeGo_not_cross (e : EventCD) (n : Nat) (s : CState)
    (h : ¬ s.window_end ≤ e.t) : finalizeGo e n s = (s, []) := by
  cases n with
  | zero => rfl
  | succ m => simp [finalizeGo, h]

theorem finalizeGo_succ_cross (e : EventCD) (n : Nat) (s : CState)
    (h : s.window_end ≤ e.t) :
    finalizeGo e (n + 1) s
      = ((finalizeGo e n (finalizeStep s).1).1,
         (finalizeStep s).2 ++ (finalizeGo e n (finalizeStep s).1).2) := by
  simp [finalizeGo, h]

theorem finalizeLoop_not_cross (e : EventCD) (s : CState)
    (h : ¬ s.window_end ≤ e.t) : finalizeLoop e s = (s, []) :=
  finalizeGo_not_cross e _ s h

/-- The finalization loop never changes the shared flags, the output
directory or the geometry, and keeps the window open if it was open. -/
theorem finalizeGo_pres (e : EventCD) :
    ∀ (n : Nat) (s : CState),
      (finalizeGo e n s).1.recording_enabled = s.recording_enabled
      ∧ (finalizeGo e n s).1.output_dir = s.output_dir
      ∧ (finalizeGo e n s).1.camera_width = s.camera_width
      ∧ (finalizeGo e n s).1.camera_height = s.camera_height
      ∧ (s.window_start.isSome = true →
          (finalizeGo e n s).1.window_start.isSome = true) := by
  intro n
  induction n with
  | zero => exact fun s => ⟨rfl, rfl, rfl, rfl, fun h => h⟩
  | succ m ih =>
    intro s
    by_cases h : s.window_end ≤ e.t
    · rw [finalizeGo_succ_cross e m s h]
      obtain ⟨i1, i2, i3, i4, i5⟩ := ih (finalizeStep s).1
      exact ⟨by simpa using i1, by simpa using i2, by simpa using i3,
             by simpa using i4, fun _ => i5 (by simp)⟩
    · rw [finalizeGo_not_cross e _ s h]
      exact ⟨rfl, rfl, rfl, rfl, fun h2 => h2⟩

/-- With a nonempty output directory and an open window, the loop moves
the live window's due lines into persisted files: total persisted lines
plus due lines are conserved. -/
theorem finalizeGo_lines (e : EventCD) :
    ∀ (n : Nat) (s : CState), s.output_dir ≠ "" →
      s.window_start.isSome = true →
      fileLines (filesOf (finalizeGo e n s).2)
          ++ recordedLines (finalizeGo e n s).1
        = recordedLines s := by
  intro n
  induction n with
  | zero => intro s _ _; simp [finalizeGo, filesOf, fileLines]
  | succ m ih =>
    intro s hdir hws
    by_cases h : s.window_end ≤ e.t
    · rw [finalizeGo_succ_cross e m s h]
      dsimp only
      rcases Option.isSome_iff_exists.mp hws with ⟨st, hst⟩
      have hstep := finalizeStep_lines s hdir st hst
      have ihh := ih (finalizeStep s).1 (by simpa using hdir) (by simp)
      have hmid : recordedLines (finalizeStep s).1 = [] := by
        simp [recordedLines]
      rw [hmid] at ihh
      rw [filesOf_append, fileLines_append]
      rw [List.append_assoc, ihh, List.append_nil, hstep]
    · rw [finalizeGo_not_cross e _ s h]
      simp [filesOf, fileLines]

/-- After at least one boundary crossing (guaranteed by sufficient fuel
when the event is at or past the window end), the live window is fresh:
empty event list, recording flag resampled from recording_enabled, and
still open. -/
theorem finalizeGo_cross_state (e : EventCD) :
    ∀ (n : Nat) (s : CState), finalizeFuel e s ≤ n → s.window_end ≤ e.t →
      (finalizeGo e n s).1.window_events = []
      ∧ (finalizeGo e n s).1.window_recording = s.recording_enabled
      ∧ (finalizeGo e n s).1.window_start.isSome = true := by
  intro n
  induction n with
  | zero =>
    intro s hfuel hcross
    exfalso
    simp only [finalizeFuel] at hfuel
    omega
  | succ m ih =>
    intro s hfuel hcross
    rw [finalizeGo_succ_cross e m s hcross]
    by_cases h2 : (finalizeStep s).1.window_end ≤ e.t
    · have hfs := finalizeFuel_step e s hcross
      obtain ⟨j1, j2, j3⟩ := ih (finalizeStep s).1 (by omega) h2
      exact ⟨j1, by simpa using j2, j3⟩
    · rw [finalizeGo_not_cross e m _ h2]
      exact ⟨rfl, rfl, rfl⟩

/-- The indices of the files emitted by the loop are consecutive from
one past the incoming recording frame counter, and the counter advances
by exactly the number of files emitted. -/
theorem finalizeGo_indices (e : EventCD) :
    ∀ (n : Nat) (s : CState),
      (filesOf (finalizeGo e n s).2).map (fun f => f.index)
        = List.range' (s.recording_frame_index + 1)
            (filesOf (finalizeGo e n s).2).length
      ∧ (finalizeGo e n s).1.recording_frame_index
        = s.recording_frame_index + (filesOf (finalizeGo e n s).2).length := by
  intro n
  induction n with
  | zero => intro s; simp [finalizeGo, filesOf]
  | succ m ih =>
    intro s
    by_cases h : s.window_end ≤ e.t
    · rw [finalizeGo_succ_cross e m s h]
      dsimp only
      obtain ⟨j1, j2⟩ := ih (finalizeStep s).1
      rcases finalizeStep_file_cases s with ⟨hr, hf⟩ | ⟨hr, st, hws, hf⟩
      · constructor
        · rw [filesOf_append, hf, List.nil_append, j1, hr]
        · rw [filesOf_append, hf, List.nil_append, j2, hr]
      · constructor
        · rw [filesOf_append, hf]
          simp only [List.cons_append, List.nil_append, List.map_cons,
            List.length_cons]
          rw [j1, hr, List.range'_succ]
        · rw [filesOf_append, hf]
          simp only [List.cons_append, List.nil_append, List.length_cons]
          rw [j2, hr]
          omega
    · rw [finalizeGo_not_cross e _ s h]
      simp [filesOf]

/-- Every file the loop emits is well formed with respect to its
finalized window. -/
theorem finalizeGo_files_wf (e : EventCD) :
    ∀ (n : Nat) (s : CState),
      ∀ fin ∈ (finalizeGo e n s).2, ∀ fl, fin.file = some fl →
        fl.lines = fin.events.map lineOf ∧ fl.t0 = fin.t0
        ∧ fl.dir = s.output_dir := by
  intro n
  induction n with
  | zero => intro s; simp [finalizeGo]
  | succ m ih =>
    intro s
    by_cases h : s.window_end ≤ e.t
    · rw [finalizeGo_succ_cross e m s h]
      intro fin hfin fl hfl
      rcases List.mem_append.mp hfin with hh | hh
      · exact finalizeStep_wf s fin hh fl hfl
      · have := ih (finalizeStep s).1 fin hh fl hfl
        exact ⟨this.1, this.2.1, by simpa using this.2.2⟩
    · rw [finalizeGo_not_cross e _ s h]
      simp

/-! ## Per-event and per-chunk processing lemmas -/

@[simp] theorem appendIfRecording_recording_enabled (s : CState) (e : EventCD) :
    (appendIfRecording s e).recording_enabled = s.recording_enabled := by
  unfold appendIfRecording; split <;> rfl

@[simp] theorem appendIfRecording_output_dir (s : CState) (e : EventCD) :
    (appendIfRecording s e).output_dir = s.output_dir := by
  unfold appendIfRecording; split <;> rfl

@[simp] theorem appendIfRecording_camera_width (s : CState) (e : EventCD) :
    (appendIfRecording s e).camera_width = s.camera_width := by
  unfold appendIfRecording; split <;> rfl

@[simp] theorem appendIfRecording_camera_height (s : CState) (e : EventCD) :
    (appendIfRecording s e).camera_height = s.camera_height := by
  unfold appendIfRecording; split <;> rfl

@[simp] theorem appendIfRecording_window_start (s : CState) (e : EventCD) :
    (appendIfRecording s e).window_start = s.window_start := by
  unfold appendIfRecording; split <;> rfl

@[simp] theorem appendIfRecording_window_end (s : CState) (e : EventCD) :
    (appendIfRecording s e).window_end = s.window_end := by
  unfold appendIfRecording; split <;> rfl

@[simp] theorem appendIfRecording_window_recording (s : CState) (e : EventCD) :
    (appendIfRecording s e).window_recording = s.window_recording := by
  unfold appendIfRecording; split <;> rfl

theorem appendIfRecording_events (s : CState) (e : EventCD) :
    (appendIfRecording s e).window_events
      = if s.window_recording = true then s.window_events ++ [e]
        else s.window_events := by
  unfold appendIfRecording; split <;> simp [*]

theorem processEvent_some (s : CState) (e : EventCD) (st : Int)
    (hws : s.window_start = some st) :
    processEvent s e = processCore s e := by
  simp [processEvent, hws]

@[simp] theorem processCore_snd (s : CState) (e : EventCD) :
    (processCore s e).2 = (finalizeLoop e s).2 := rfl

/-- Per-event processing never changes the shared flags, the output
directory or the geometry, and keeps an open window open. -/
theorem processEvent_pres (s : CState) (e : EventCD) :
    (processEvent s e).1.recording_enabled = s.recording_enabled
    ∧ (processEvent s e).1.output_dir = s.output_dir
    ∧ (processEvent s e).1.camera_width = s.camera_width
    ∧ (processEvent s e).1.camera_height = s.camera_height
    ∧ (s.window_start.isSome = true →
        (processEvent s e).1.window_start.isSome = true) := by
  have core : ∀ (q : CState),
      (processCore q e).1.recording_enabled = q.recording_enabled
      ∧ (processCore q e).1.output_dir = q.output_dir
      ∧ (processCore q e).1.camera_width = q.camera_width
      ∧ (processCore q e).1.camera_height = q.camera_height
      ∧ (q.window_start.isSome = true →
          (processCore q e).1.window_start.isSome = true) := by
    intro q
    obtain ⟨g1, g2, g3, g4, g5⟩ := finalizeGo_pres e (finalizeFuel e q) q
    unfold processCore finalizeLoop
    refine ⟨by simpa using g1, by simpa using g2, by simpa using g3,
            by simpa using g4, fun h => ?_⟩
    simpa using g5 h
  rcases hws : s.window_start with _ | st
  · by_cases hg : s.camera_width = 0 ∨ s.camera_height = 0
    · simp [processEvent, hws, hg]
    · have heval : processEvent s e
          = processCore
              { s with current_frame := mkFrame s.camera_height s.camera_width,
                       window_events := [], window_start := some e.t,
                       window_end := e.t + kWindowUs,
                       window_recording := s.recording_enabled } e := by
        simp [processEvent, hws, hg]
      rw [heval]
      obtain ⟨c1, c2, c3, c4, c5⟩ := core _
      exact ⟨c1, c2, c3, c4, fun _ => c5 rfl⟩
  · rw [processEvent_some s e st hws]
    have := core s
    exact ⟨this.1, this.2.1, this.2.2.1, this.2.2.2.1,
           fun _ => this.2.2.2.2 (by rw [hws]; rfl)⟩

/-! ## Folding events, chunks and traces -/

theorem processEvents_shift :
    ∀ (es : List EventCD) (s : CState) (o : List Finalized),
      es.foldl stepE (s, o)
        = ((processEvents s es).1, o ++ (processEvents s es).2) := by
  intro es
  induction es with
  | nil => intro s o; simp [processEvents]
  | cons e es ih =>
    intro s o
    calc (e :: es).foldl stepE (s, o)
        = es.foldl stepE ((processEvent s e).1, o ++ (processEvent s e).2) := rfl
      _ = ((processEvents (processEvent s e).1 es).1,
           (o ++ (processEvent s e).2)
             ++ (processEvents (processEvent s e).1 es).2) :=
          ih (processEvent s e).1 (o ++ (processEvent s e).2)
      _ = ((processEvents s (e :: es)).1,
           o ++ (processEvents s (e :: es)).2) := by
          have h3 : processEvents s (e :: es)
              = es.foldl stepE ((processEvent s e).1, (processEvent s e).2) := rfl
          rw [h3, ih (processEvent s e).1 (processEvent s e).2,
              List.append_assoc]

theorem processEvents_cons (s : CState) (e : EventCD) (es : List EventCD) :
    processEvents s (e :: es)
      = ((processEvents (processEvent s e).1 es).1,
         (processEvent s e).2
           ++ (processEvents (processEvent s e).1 es).2) := by
  have h3 : processEvents s (e :: es)
      = es.foldl stepE ((processEvent s e).1, (processEvent s e).2) := rfl
  rw [h3, processEvents_shift]

theorem processEvents_append (s : CState) (a b : List EventCD) :
    processEvents s (a ++ b)
      = ((processEvents (processEvents s a).1 b).1,
         (processEvents s a).2
           ++ (processEvents (processEvents s a).1 b).2) := by
  calc processEvents s (a ++ b)
      = b.foldl stepE (a.foldl stepE (s, [])) := by
        show (a ++ b).foldl stepE (s, []) = _
        rw [List.foldl_append]
    _ = b.foldl stepE ((processEvents s a).1, (processEvents s a).2) := rfl
    _ = ((processEvents (processEvents s a).1 b).1,
         (processEvents s a).2
           ++ (processEvents (processEvents s a).1 b).2) :=
        processEvents_shift b _ _

theorem processChunks_shift :
    ∀ (cs : List (List EventCD)) (s : CState) (o : List Finalized),
      cs.foldl stepChunk (s, o)
        = ((processChunks s cs).1, o ++ (processChunks s cs).2) := by
  intro cs
  induction cs with
  | nil => intro s o; simp [processChunks]
  | cons c cs ih =>
    intro s o
    calc (c :: cs).foldl stepChunk (s, o)
        = cs.foldl stepChunk
            ((processEvents s c).1, o ++ (processEvents s c).2) := rfl
      _ = ((processChunks (processEvents s c).1 cs).1,
           (o ++ (processEvents s c).2)
             ++ (processChunks (processEvents s c).1 cs).2) :=
          ih (processEvents s c).1 (o ++ (processEvents s c).2)
      _ = ((processChunks s (c :: cs)).1,
           o ++ (processChunks s (c :: cs)).2) := by
          have h3 : processChunks s (c :: cs)
              = cs.foldl stepChunk
                  ((processEvents s c).1, (processEvents s c).2) := rfl
          rw [h3, ih (processEvents s c).1 (processEvents s c).2,
              List.append_assoc]

theorem processChunks_eq_flatten :
    ∀ (cs : List (List EventCD)) (s : CState),
      processChunks s cs = processEvents s cs.flatten := by
  intro cs
  induction cs with
  | nil => intro s; rfl
  | cons c cs ih =>
    intro s
    have hcons : processChunks s (c :: cs)
        = ((processChunks (processEvents s c).1 cs).1,
           (processEvents s c).2
             ++ (processChunks (processEvents s c).1 cs).2) := by
      have h3 : processChunks s (c :: cs)
          = cs.foldl stepChunk
              ((processEvents s c).1, (processEvents s c).2) := rfl
      rw [h3, processChunks_shift]
    rw [hcons, ih]
    have hflat : (c :: cs).flatten = c ++ cs.flatten := rfl
    rw [hflat, processEvents_append]

theorem processTrace_shift :
    ∀ (acts : List ConsumerAction) (s : CState) (o : List Finalized),
      acts.foldl stepA (s, o)
        = ((processTrace s acts).1, o ++ (processTrace s acts).2) := by
  intro acts
  induction acts with
  | nil => intro s o; simp [processTrace]
  | cons a acts ih =>
    intro s o
    calc (a :: acts).foldl stepA (s, o)
        = acts.foldl stepA ((processAction s a).1, o ++ (processAction s a).2) := rfl
      _ = ((processTrace (processAction s a).1 acts).1,
           (o ++ (processAction s a).2)
             ++ (processTrace (processAction s a).1 acts).2) :=
          ih (processAction s a).1 (o ++ (processAction s a).2)
      _ = ((processTrace s (a :: acts)).1,
           o ++ (processTrace s (a :: acts)).2) := by
          have h3 : processTrace s (a :: acts)
              = acts.foldl stepA ((processAction s a).1, (processAction s a).2) := rfl
          rw [h3, ih (processAction s a).1 (processAction s a).2,
              List.append_assoc]

theorem processTrace_cons (s : CState) (a : ConsumerAction)
    (acts : List ConsumerAction) :
    processTrace s (a :: acts)
      = ((processTrace (processAction s a).1 acts).1,
         (processAction s a).2
           ++ (processTrace (processAction s a).1 acts).2) := by
  have h3 : processTrace s (a :: acts)
      = acts.foldl stepA ((processAction s a).1, (processAction s a).2) := rfl
  rw [h3, processTrace_shift]

/-! ## Pre-boundary events with recording off -/

theorem processEvent_no_cross (s : CState) (e : EventCD) (st : Int)
    (hws : s.window_start = some st) (hlt : ¬ s.window_end ≤ e.t)
    (hwr : s.window_recording = false) :
    processEvent s e
      = ({ s with current_frame := writePixel s.current_frame e }, []) := by
  rw [processEvent_some s e st hws]
  unfold processCore
  rw [finalizeLoop_not_cross e s hlt]
  dsimp only
  simp [appendIfRecording, hwr]

theorem processEvents_no_cross :
    ∀ (B : List EventCD) (s : CState) (st : Int),
      s.window_start = some st → s.window_recording = false →
      (∀ e ∈ B, e.t < s.window_end) →
      ∃ fr, processEvents s B = ({ s with current_frame := fr }, []) := by
  intro B
  induction B with
  | nil =>
    intro s st hws hwr hb
    exact ⟨s.current_frame, rfl⟩
  | cons e B ih =>
    intro s st hws hwr hb
    have hlt : ¬ s.window_end ≤ e.t := by
      have := hb e (List.mem_cons_self e B)
      omega
    have h1 := processEvent_no_cross s e st hws hlt hwr
    have hb2 : ∀ e2 ∈ B,
        e2.t < ({ s with current_frame := writePixel s.current_frame e }
          : CState).window_end := by
      intro e2 he2
      exact hb e2 (List.mem_cons_of_mem _ he2)
    obtain ⟨fr, hfr⟩ :=
      ih { s with current_frame := writePixel s.current_frame e } st hws hwr hb2
    refine ⟨fr, ?_⟩
    rw [processEvents_cons, h1]
    dsimp only
    rw [hfr]
    rfl

/-! ## Recording-phase conservation of persisted lines -/

/-- Processing one event in a recording-enabled state with an open
window and a set output directory: the persisted lines plus the live
window's due lines grow by exactly this event's line, and the live
window records afterwards. -/
theorem processEvent_rec (s : CState) (e : EventCD)
    (hws : s.window_start.isSome = true) (hdir : s.output_dir ≠ "")
    (hre : s.recording_enabled = true)
    (hcr : s.window_recording = true ∨ s.window_end ≤ e.t) :
    fileLines (filesOf (processEvent s e).2)
        ++ recordedLines (processEvent s e).1
      = recordedLines s ++ [lineOf e]
    ∧ (processEvent s e).1.window_recording = true := by
  rcases Option.isSome_iff_exists.mp hws with ⟨st, hst⟩
  rw [processEvent_some s e st hst]
  unfold processCore
  by_cases hcross : s.window_end ≤ e.t
  · have hlines2 : fileLines (filesOf (finalizeLoop e s).2)
        ++ recordedLines (finalizeLoop e s).1 = recordedLines s :=
      finalizeGo_lines e (finalizeFuel e s) s hdir hws
    have hcs2 : (finalizeLoop e s).1.window_events = []
        ∧ (finalizeLoop e s).1.window_recording = s.recording_enabled
        ∧ (finalizeLoop e s).1.window_start.isSome = true :=
      finalizeGo_cross_state e (finalizeFuel e s) s (le_refl _) hcross
    have hmidrec : (finalizeLoop e s).1.window_recording = true := by
      rw [hcs2.2.1, hre]
    have hmid0 : recordedLines (finalizeLoop e s).1 = [] := by
      simp [recordedLines, hmidrec, hcs2.1]
    have hfl : fileLines (filesOf (finalizeLoop e s).2) = recordedLines s := by
      rw [hmid0, List.append_nil] at hlines2
      exact hlines2
    dsimp only
    constructor
    · rw [hfl]
      have happ : recordedLines (appendIfRecording
          { (finalizeLoop e s).1 with
            current_frame := writePixel (finalizeLoop e s).1.current_frame e } e)
          = [lineOf e] := by
        simp [recordedLines, appendIfRecording, hmidrec, hcs2.1]
      rw [happ]
    · simp [hmidrec]
  · have hrec : s.window_recording = true := hcr.resolve_right hcross
    rw [finalizeLoop_not_cross e s hcross]
    dsimp only
    constructor
    · simp [fileLines, filesOf, recordedLines, appendIfRecording, hrec]
    · simp [hrec]

/-- Over a whole event list: from a recording-enabled state with a set
output directory and an open window that is either already recording or
crossed by every event, the persisted lines plus the live due lines are
exactly the prior due lines followed by every processed event's line. -/
theorem processEvents_recording :
    ∀ (B : List EventCD) (s : CState),
      s.recording_enabled = true → s.output_dir ≠ "" →
      s.window_start.isSome = true →
      (s.window_recording = true ∨ ∀ e ∈ B, s.window_end ≤ e.t) →
      fileLines (filesOf (processEvents s B).2)
          ++ recordedLines (processEvents s B).1
        = recordedLines s ++ B.map lineOf := by
  intro B
  induction B with
  | nil =>
    intro s h1 h2 h3 h4
    simp [processEvents, filesOf, fileLines]
  | cons e B ih =>
    intro s h1 h2 h3 h4
    have hcr : s.window_recording = true ∨ s.window_end ≤ e.t := by
      rcases h4 with h | h
      · exact Or.inl h
      · exact Or.inr (h e (List.mem_cons_self e B))
    obtain ⟨heq, hwrec⟩ := processEvent_rec s e h3 h2 h1 hcr
    have hpres := processEvent_pres s e
    have ihh := ih (processEvent s e).1
      (by rw [hpres.1]; exact h1)
      (by rw [hpres.2.1]; exact h2)
      (hpres.2.2.2.2 h3)
      (Or.inl hwrec)
    rw [processEvents_cons]
    dsimp only
    rw [filesOf_append, fileLines_append, List.append_assoc, ihh,
        ← List.append_assoc, heq]
    simp

/-- Claim C1 counterexample: with a device whose construction succeeds
but whose start() throws, the open command on a fresh session ends with
the exception escaping while camera_on is already true, so the session
state is not left unchanged. -/
theorem open_start_throw_leaves_camera_on :
    (handle_command_open (some ⟨640, 480, true, true⟩)
        ⟨false, 0, 0, false, false, ""⟩).2 = OpenOutcome.startThrew
    ∧ (handle_command_open (some ⟨640, 480, true, true⟩)
        ⟨false, 0, 0, false, false, ""⟩).1.camera_on = true
    ∧ (handle_command_open (some ⟨640, 480, true, true⟩)
        ⟨false, 0, 0, false, false, ""⟩).1
        ≠ (⟨false, 0, 0, false, false, ""⟩ : SessionState) := by
  refine ⟨rfl, rfl, ?_⟩
  decide

/-- Claim C1 (amended): only a failure of camera construction is caught
and leaves the session state unchanged; a throw from start() escapes the
open command with camera_on already stored as true. -/
theorem open_command_error_paths (s : SessionState) (d : DeviceModel)
    (hoff : s.camera_on = false) (hthrow : d.start_throws = true) :
    (handle_command_open (some d) s).2 = OpenOutcome.startThrew
    ∧ (handle_command_open (some d) s).1.camera_on = true
    ∧ handle_command_open none s = (s, OpenOutcome.openFailed) := by
  simp [handle_command_open, hoff, hthrow]

/-- Concrete instance of open_command_error_paths. -/
theorem open_command_error_paths_witness :
    (handle_command_open (some ⟨640, 480, true, false⟩)
        ⟨false, 0, 0, false, false, ""⟩).2 = OpenOutcome.startThrew
    ∧ (handle_command_open (some ⟨640, 480, true, false⟩)
        ⟨false, 0, 0, false, false, ""⟩).1.camera_on = true
    ∧ handle_command_open none ⟨false, 0, 0, false, false, ""⟩
        = (⟨false, 0, 0, false, false, ""⟩, OpenOutcome.openFailed) :=
  open_command_error_paths ⟨false, 0, 0, false, false, ""⟩
    ⟨640, 480, true, false⟩ rfl rfl

/-! ## Claim C4: consumer-side dequeue behavior -/

/-- Claim C4 counterexample: when the running flag is cleared while a
chunk is still queued, the consumer exits its loop immediately, leaving
the chunk undelivered, so the queue is not drained before exit. -/
theorem dequeue_exit_discards_pending :
    dequeueStep false [[⟨1, 1, 0⟩]]
      = (DequeueResult.exitLoop, [[⟨1, 1, 0⟩]])
    ∧ ([[⟨1, 1, 0⟩]] : List (List EventCD)) ≠ [] := by
  refine ⟨rfl, ?_⟩
  decide

/-- Claim C4 (amended): the consumer blocks while the queue is empty
and the session is active, wakes on deactivation or on a queued chunk,
delivers queued chunks in FIFO order while active, and exits immediately
once deactivated, discarding whatever is still queued. -/
theorem dequeue_semantics (q : List (List EventCD)) (c : List EventCD)
    (rest : List (List EventCD)) :
    dequeueWaitDone true [] = false
    ∧ dequeueWaitDone false q = true
    ∧ dequeueWaitDone true (c :: rest) = true
    ∧ dequeueStep false q = (DequeueResult.exitLoop, q)
    ∧ dequeueStep true (c :: rest) = (DequeueResult.chunk c, rest) :=
  ⟨rfl, rfl, rfl, rfl, rfl⟩

/-! ## Claim C7: bias clamping before the driver write -/

/-- Claim C7: for a bias-set request on an existing, modifiable bias,
the driver's set is invoked with the request clamped into the
driver-reported (normalized) range, and the clamped value lies inside
that range. -/
theorem bias_clamped_before_set (f : I_LL_Biases) (name : String)
    (value : Int) (info : LL_Bias_Info)
    (hinfo : get_bias_info f name = some info)
    (hmod : info.modifiable = true) :
    (apply_single_bias (some f) name value).2
      = some (clamp_bias_value value (bias_range_or_default (some f) name))
    ∧ (bias_range_or_default (some f) name).1
        ≤ clamp_bias_value value (bias_range_or_default (some f) name)
    ∧ clamp_bias_value value (bias_range_or_default (some f) name)
        ≤ (bias_range_or_default (some f) name).2 := by
  have hle : (bias_range_or_default (some f) name).1
      ≤ (bias_range_or_default (some f) name).2 := by
    simp only [bias_range_or_default, hinfo]
    split
    · simp
      omega
    · omega
  refine ⟨?_, ?_, ?_⟩
  · simp only [apply_single_bias, hinfo, hmod]
    simp
    split <;> rfl
  · unfold clamp_bias_value
    split
    · omega
    · split <;> omega
  · unfold clamp_bias_value
    split
    · omega
    · split <;> omega

/-- Concrete instance of bias_clamped_before_set: a request of 150 on a
modifiable bias with reported range 0..100 invokes the driver set with
100, not 150. -/
theorem bias_clamped_before_set_witness :
    (apply_single_bias
        (some ⟨[("bias_diff", ⟨(0, 100), true⟩)], true⟩)
        "bias_diff" 150).2 = some 100 :=
  Eq.trans
    (bias_clamped_before_set ⟨[("bias_diff", ⟨(0, 100), true⟩)], true⟩
      "bias_diff" 150 ⟨(0, 100), true⟩ (by decide) rfl).1
    (by decide)

/-! ## Claim C8: recording command atomicity -/

/-- Claim C8: the start-recording command is rejected with no state
change when recording is already on, fails with no state change (in
particular recording stays off and the output directory is untouched)
when directory creation fails, and the stop-recording command is a no-op
when recording is already off. -/
theorem recording_command_atomic (s : RecState) (d : String) :
    (s.recording_enabled = true →
      handle_command_start_recording true d s = (s, RecOutcome.alreadyOn)
      ∧ handle_command_start_recording false d s = (s, RecOutcome.alreadyOn))
    ∧ (s.recording_enabled = false →
      handle_command_start_recording false d s = (s, RecOutcome.dirFailed))
    ∧ (s.recording_enabled = false →
      handle_command_stop_recording s = (s, RecOutcome.alreadyOff)) := by
  refine ⟨fun h => ?_, fun h => ?_, fun h => ?_⟩ <;>
    simp [handle_command_start_recording, handle_command_stop_recording, h]

/-- Concrete instance of recording_command_atomic. -/
theorem recording_command_atomic_witness :
    handle_command_start_recording false "output/run_x"
        (⟨false, false, "old_dir"⟩ : RecState)
      = (⟨false, false, "old_dir"⟩, RecOutcome.dirFailed)
    ∧ handle_command_stop_recording (⟨false, false, "old_dir"⟩ : RecState)
      = (⟨false, false, "old_dir"⟩, RecOutcome.alreadyOff) :=
  ⟨(recording_command_atomic ⟨false, false, "old_dir"⟩ "output/run_x").2.1 rfl,
   (recording_command_atomic ⟨false, false, "old_dir"⟩ "output/run_x").2.2 rfl⟩

/-! ## Claim C9: guarded pixel writes -/

/-- Claim C9: the live frame buffer is written only at coordinates
strictly inside its bounds: an out-of-range event leaves the frame
bit-for-bit unchanged (dropped, never clamped to a border pixel), any
changed pixel is exactly the event's own coordinate, and the frame
dimensions never change. -/
theorem pixel_write_in_bounds (f : Frame) (e : EventCD) :
    (¬(e.x < frameWidth f ∧ e.y < frameHeight f) → writePixel f e = f)
    ∧ (∀ i j, getPix (writePixel f e) i j ≠ getPix f i j →
        j = e.x ∧ i = e.y ∧ e.x < frameWidth f ∧ e.y < frameHeight f)
    ∧ frameWidth (writePixel f e) = frameWidth f
    ∧ frameHeight (writePixel f e) = frameHeight f := by
  by_cases hb : e.x < frameWidth f ∧ e.y < frameHeight f
  · have hw : writePixel f e = setPix f e.y e.x := if_pos hb
    refine ⟨fun hc => absurd hb hc, ?_, ?_, ?_⟩
    · intro i j hne
      rw [hw] at hne
      rcases eq_or_ne i e.y with hy | hy
      · subst hy
        rcases eq_or_ne j e.x with hx | hx
        · exact ⟨hx, rfl, hb.1, hb.2⟩
        · exfalso
          apply hne
          unfold setPix getPix
          rw [getD_set_self _ _ hb.2]
          exact getD_set_of_ne _ _ (fun h => hx h.symm)
      · exfalso
        apply hne
        unfold setPix getPix
        rw [getD_set_of_ne _ _ (fun h => hy h.symm)]
    · rw [hw]
      unfold setPix frameWidth
      match f, e.y with
      | [], _ => rfl
      | r :: t, 0 => simp
      | r :: t, n + 1 => simp [List.set]
    · rw [hw]
      unfold setPix frameHeight
      exact List.length_set f e.y _
  · have hw : writePixel f e = f := if_neg hb
    exact ⟨fun _ => hw, fun i j hne => absurd (by rw [hw]) hne,
           by rw [hw], by rw [hw]⟩

/-- Concrete instance of pixel_write_in_bounds: an event at x = 5 on a
2x2 frame is dropped without touching any pixel. -/
theorem pixel_write_in_bounds_witness :
    writePixel (mkFrame 2 2) ⟨5, 0, 0⟩ = mkFrame 2 2 :=
  (pixel_write_in_bounds (mkFrame 2 2) ⟨5, 0, 0⟩).1 (by decide)

/-! ## Claim C2: chunk-boundary independence -/

/-- Claim C2: for every sequence of events with non-decreasing
timestamps and every partition of it into chunks, feeding the chunks in
order yields exactly the same final accumulator state and the same
finalized-window sequence (same start times, frame snapshots and
recorded event lists) as feeding the whole sequence as one chunk; a
chunk boundary never resets or alters window state. -/
theorem chunk_boundary_independence (s : CState) (cs : List (List EventCD))
    (_hmono : List.Pairwise (fun a b : EventCD => a.t ≤ b.t) cs.flatten) :
    processChunks s cs = processEvents s cs.flatten :=
  processChunks_eq_flatten cs s

/-- Concrete instance of chunk_boundary_independence. -/
theorem chunk_boundary_independence_witness :
    processChunks exampleInit [[⟨1, 1, 0⟩], [⟨2, 2, 1500⟩, ⟨3, 3, 2500⟩]]
      = processEvents exampleInit
          ([[⟨1, 1, 0⟩], [⟨2, 2, 1500⟩, ⟨3, 3, 2500⟩]]
            : List (List EventCD)).flatten :=
  chunk_boundary_independence exampleInit
    [[⟨1, 1, 0⟩], [⟨2, 2, 1500⟩, ⟨3, 3, 2500⟩]] (by decide)

/-! ## Claim C3: the end-to-end example run -/

/-- Claim C3 counterexample: the example run (events at t = 0, 1500,
2500 with window 2000 and geometry 4x4) finalizes exactly one frame,
not two: upon receipt of the third event only window 1 is finalized,
while window 2 stays live. -/
theorem example_run_not_two_frames :
    (processEvents exampleInit exampleEvents).2.length = 1
    ∧ (processEvents exampleInit exampleEvents).2.length ≠ 2 := by
  constructor <;> decide

/-- Claim C3 (amended): the example run finalizes exactly one frame —
window 1 over [0, 2000) with pixels (1,1) and (2,2) set, finalized upon
receipt of the third event (no finalization after only two events) —
and leaves window 2 over [2000, 4000) live with pixel (3,3) set in the
live buffer, not yet finalized. -/
theorem example_run_one_finalized :
    (processEvents exampleInit [⟨1, 1, 0⟩, ⟨2, 2, 1500⟩]).2 = []
    ∧ (processEvents exampleInit exampleEvents).2
        = [{ frame_index := 0, t0 := 0,
             frame := [[false, false, false, false],
                       [false, true, false, false],
                       [false, false, true, false],
                       [false, false, false, false]],
             events := [], file := none }]
    ∧ (processEvents exampleInit exampleEvents).1.window_start = some 2000
    ∧ (processEvents exampleInit exampleEvents).1.window_end = 4000
    ∧ getPix (processEvents exampleInit exampleEvents).1.current_frame 3 3
        = true := by
  refine ⟨?_, ?_, ?_, ?_, ?_⟩ <;> decide

/-! ## Claim C10: finalization happens only on a boundary-reaching event -/

/-- Claim C10: per-event processing emits finalized windows only when a
window was already open and the event's timestamp has reached the
window's end; a session reset (camera open or close, shutdown path)
emits nothing — the partially accumulated window is discarded with no
frame snapshot and no persisted file — and leaves no window open. -/
theorem finalize_only_on_boundary_event (s q : CState) (e : EventCD) :
    ((processEvent s e).2 ≠ [] →
      s.window_start ≠ none ∧ s.window_end ≤ e.t)
    ∧ processAction q ConsumerAction.sessionReset = (resetState q, [])
    ∧ (resetState q).window_start = none := by
  refine ⟨?_, rfl, rfl⟩
  intro hne
  rcases hws : s.window_start with _ | st
  · exfalso
    apply hne
    by_cases hg : s.camera_width = 0 ∨ s.camera_height = 0
    · simp [processEvent, hws, hg]
    · have heval : processEvent s e
          = processCore
              { s with current_frame := mkFrame s.camera_height s.camera_width,
                       window_events := [], window_start := some e.t,
                       window_end := e.t + kWindowUs,
                       window_recording := s.recording_enabled } e := by
        simp [processEvent, hws, hg]
      have hno : ¬ ({ s with
          current_frame := mkFrame s.camera_height s.camera_width,
          window_events := [], window_start := some e.t,
          window_end := e.t + kWindowUs,
          window_recording := s.recording_enabled } : CState).window_end
            ≤ e.t := by
        show ¬ e.t + kWindowUs ≤ e.t
        simp only [kWindowUs]
        omega
      rw [heval, processCore_snd, finalizeLoop_not_cross e _ hno]
  · refine ⟨by simp, ?_⟩
    by_contra hlt
    apply hne
    rw [processEvent_some s e st hws, processCore_snd,
        finalizeLoop_not_cross e s hlt]

/-- Concrete instance of finalize_only_on_boundary_event. -/
theorem finalize_only_on_boundary_event_witness :
    (toggleInit.window_start ≠ none
      ∧ toggleInit.window_end ≤ (⟨3, 3, 2500⟩ : EventCD).t)
    ∧ processAction exampleInit ConsumerAction.sessionReset
        = (resetState exampleInit, [])
    ∧ (resetState exampleInit).window_start = none :=
  ⟨(finalize_only_on_boundary_event toggleInit exampleInit ⟨3, 3, 2500⟩).1
     (by decide),
   (finalize_only_on_boundary_event toggleInit exampleInit ⟨3, 3, 2500⟩).2⟩

/-! ## Recording flag stays set across events -/

theorem processEvents_rec_flag :
    ∀ (B : List EventCD) (s : CState),
      s.recording_enabled = true → s.output_dir ≠ "" →
      s.window_start.isSome = true → s.window_recording = true →
      (processEvents s B).1.window_recording = true := by
  intro B
  induction B with
  | nil => intro s _ _ _ h4; exact h4
  | cons e B ih =>
    intro s h1 h2 h3 h4
    rw [processEvents_cons]
    dsimp only
    obtain ⟨_, hflag⟩ := processEvent_rec s e h3 h2 h1 (Or.inl h4)
    have hpres := processEvent_pres s e
    exact ih (processEvent s e).1 (by rw [hpres.1]; exact h1)
      (by rw [hpres.2.1]; exact h2) (hpres.2.2.2.2 h3) hflag

theorem processEvents_rec_flag_cross (B : List EventCD) (s : CState)
    (hne : B ≠ []) (h1 : s.recording_enabled = true)
    (h2 : s.output_dir ≠ "") (h3 : s.window_start.isSome = true)
    (h4 : s.window_recording = true ∨ ∀ e ∈ B, s.window_end ≤ e.t) :
    (processEvents s B).1.window_recording = true := by
  cases B with
  | nil => exact absurd rfl hne
  | cons e rest =>
    rw [processEvents_cons]
    dsimp only
    have hcr : s.window_recording = true ∨ s.window_end ≤ e.t := by
      rcases h4 with h | h
      · exact Or.inl h
      · exact Or.inr (h e (List.mem_cons_self e rest))
    obtain ⟨_, hflag⟩ := processEvent_rec s e h3 h2 h1 hcr
    have hpres := processEvent_pres s e
    exact processEvents_rec_flag rest (processEvent s e).1
      (by rw [hpres.1]; exact h1) (by rw [hpres.2.1]; exact h2)
      (hpres.2.2.2.2 h3) hflag

/-! ## Claim C5: boundary-clean recording activation -/

/-- Claim C5: toggling recording on mid-window (window open, recording
off, hence empty live event list) emits nothing by itself, finalizes
and persists nothing for the rest of the pre-boundary window, and from
the first window boundary on, the lines persisted to files plus the
live window's still-pending lines are exactly the post-boundary events
in order — so no event from before the toggle appears in any persisted
file, every post-boundary event is captured, and the recording flag is
freshly resampled (true) for each window after the boundary. -/
theorem recording_toggle_boundary_clean (s : CState) (st : Int)
    (B1 B2 : List EventCD)
    (hws : s.window_start = some st)
    (hwr : s.window_recording = false)
    (_hev : s.window_events = [])
    (_hre : s.recording_enabled = false)
    (hdir : s.output_dir ≠ "")
    (h1 : ∀ e ∈ B1, e.t < s.window_end)
    (h2 : ∀ e ∈ B2, s.window_end ≤ e.t) :
    fileLines (filesOf (processTrace s
          [ConsumerAction.setRecording true, ConsumerAction.chunk B1,
           ConsumerAction.chunk B2]).2)
        ++ recordedLines (processTrace s
          [ConsumerAction.setRecording true, ConsumerAction.chunk B1,
           ConsumerAction.chunk B2]).1
      = B2.map lineOf
    ∧ (processTrace s
        [ConsumerAction.setRecording true, ConsumerAction.chunk B1]).2 = []
    ∧ (B2 ≠ [] → (processTrace s
        [ConsumerAction.setRecording true, ConsumerAction.chunk B1,
         ConsumerAction.chunk B2]).1.window_recording = true) := by
  have hT : processTrace s [ConsumerAction.setRecording true,
      ConsumerAction.chunk B1, ConsumerAction.chunk B2]
      = ((processEvents
            (processEvents { s with recording_enabled := true } B1).1 B2).1,
         (processEvents { s with recording_enabled := true } B1).2
           ++ (processEvents
                (processEvents { s with recording_enabled := true } B1).1
                B2).2) := by
    rw [processTrace_cons]
    dsimp only [processAction]
    rw [processTrace_cons]
    dsimp only [processAction]
    rw [processTrace_cons]
    dsimp only [processAction]
    simp [processTrace]
  obtain ⟨fr, hB1⟩ := processEvents_no_cross B1
    { s with recording_enabled := true } st hws hwr h1
  have hB1snd :
      (processEvents { s with recording_enabled := true } B1).2 = [] := by
    rw [hB1]
  have hS2a :
      (processEvents { s with recording_enabled := true } B1).1.recording_enabled
        = true := by
    rw [hB1]
  have hS2dir :
      (processEvents { s with recording_enabled := true } B1).1.output_dir
        ≠ "" := by
    rw [hB1]
    exact hdir
  have hS2ws :
      (processEvents { s with recording_enabled := true } B1).1.window_start.isSome
        = true := by
    rw [hB1]
    simp [hws]
  have hS2end : ∀ e ∈ B2,
      (processEvents { s with recording_enabled := true } B1).1.window_end
        ≤ e.t := by
    intro e he
    rw [hB1]
    exact h2 e he
  have hrl :
      recordedLines (processEvents { s with recording_enabled := true } B1).1
        = [] := by
    rw [hB1]
    simp [recordedLines, hwr]
  have hrec := processEvents_recording B2
    (processEvents { s with recording_enabled := true } B1).1
    hS2a hS2dir hS2ws (Or.inr hS2end)
  refine ⟨?_, ?_, ?_⟩
  · rw [hT]
    dsimp only
    rw [hB1snd, List.nil_append, hrec, hrl, List.nil_append]
  · rw [processTrace_cons]
    dsimp only [processAction]
    rw [processTrace_cons]
    dsimp only [processAction]
    simp [processTrace, hB1snd]
  · intro hBne
    rw [hT]
    dsimp only
    exact processEvents_rec_flag_cross B2
      (processEvents { s with recording_enabled := true } B1).1
      hBne hS2a hS2dir hS2ws (Or.inr hS2end)

/-- Concrete instance of recording_toggle_boundary_clean: toggle on
mid-window at e-time 500, post-boundary events at 2500 and 2600. -/
theorem recording_toggle_boundary_clean_witness :
    fileLines (filesOf (processTrace toggleInit
          [ConsumerAction.setRecording true,
           ConsumerAction.chunk [⟨1, 1, 500⟩],
           ConsumerAction.chunk [⟨2, 2, 2500⟩, ⟨3, 3, 2600⟩]]).2)
        ++ recordedLines (processTrace toggleInit
          [ConsumerAction.setRecording true,
           ConsumerAction.chunk [⟨1, 1, 500⟩],
           ConsumerAction.chunk [⟨2, 2, 2500⟩, ⟨3, 3, 2600⟩]]).1
      = ([⟨2, 2, 2500⟩, ⟨3, 3, 2600⟩] : List EventCD).map lineOf
    ∧ (processTrace toggleInit
        [ConsumerAction.setRecording true,
         ConsumerAction.chunk [⟨1, 1, 500⟩]]).2 = []
    ∧ (([⟨2, 2, 2500⟩, ⟨3, 3, 2600⟩] : List EventCD) ≠ [] →
        (processTrace toggleInit
          [ConsumerAction.setRecording true,
           ConsumerAction.chunk [⟨1, 1, 500⟩],
           ConsumerAction.chunk [⟨2, 2, 2500⟩, ⟨3, 3, 2600⟩]]).1.window_recording
          = true) :=
  recording_toggle_boundary_clean toggleInit 0 [⟨1, 1, 500⟩]
    [⟨2, 2, 2500⟩, ⟨3, 3, 2600⟩] rfl rfl rfl rfl (by decide)
    (by decide) (by decide)

/-! ## Claim C6: persisted file naming -/

@[simp] theorem appendIfRecording_recording_frame_index (s : CState)
    (e : EventCD) :
    (appendIfRecording s e).recording_frame_index
      = s.recording_frame_index := by
  unfold appendIfRecording; split <;> rfl

theorem processCore_rfi (s : CState) (e : EventCD) :
    (processCore s e).1.recording_frame_index
      = (finalizeLoop e s).1.recording_frame_index := by
  unfold processCore
  dsimp only
  rw [appendIfRecording_recording_frame_index]

/-- Per-event version of the file-index bookkeeping. -/
theorem processEvent_indices (s : CState) (e : EventCD) :
    (filesOf (processEvent s e).2).map (fun f => f.index)
      = List.range' (s.recording_frame_index + 1)
          (filesOf (processEvent s e).2).length
    ∧ (processEvent s e).1.recording_frame_index
      = s.recording_frame_index + (filesOf (processEvent s e).2).length := by
  rcases hws : s.window_start with _ | st
  · by_cases hg : s.camera_width = 0 ∨ s.camera_height = 0
    · simp [processEvent, hws, hg, filesOf]
    · have heval : processEvent s e
          = processCore
              { s with current_frame := mkFrame s.camera_height s.camera_width,
                       window_events := [], window_start := some e.t,
                       window_end := e.t + kWindowUs,
                       window_recording := s.recording_enabled } e := by
        simp [processEvent, hws, hg]
      rw [heval]
      have hidx := finalizeGo_indices e
        (finalizeFuel e
          { s with current_frame := mkFrame s.camera_height s.camera_width,
                   window_events := [], window_start := some e.t,
                   window_end := e.t + kWindowUs,
                   window_recording := s.recording_enabled })
        { s with current_frame := mkFrame s.camera_height s.camera_width,
                 window_events := [], window_start := some e.t,
                 window_end := e.t + kWindowUs,
                 window_recording := s.recording_enabled }
      exact ⟨hidx.1, by rw [processCore_rfi]; exact hidx.2⟩
  · rw [processEvent_some s e st hws]
    have hidx := finalizeGo_indices e (finalizeFuel e s) s
    exact ⟨hidx.1, by rw [processCore_rfi]; exact hidx.2⟩

/-- Over a whole event list without resets, files get consecutive
strictly increasing indices starting one past the incoming counter. -/
theorem processEvents_indices :
    ∀ (es : List EventCD) (s : CState),
      (filesOf (processEvents s es).2).map (fun f => f.index)
        = List.range' (s.recording_frame_index + 1)
            (filesOf (processEvents s es).2).length
      ∧ (processEvents s es).1.recording_frame_index
        = s.recording_frame_index
            + (filesOf (processEvents s es).2).length := by
  intro es
  induction es with
  | nil => intro s; simp [processEvents, filesOf]
  | cons e es ih =>
    intro s
    rw [processEvents_cons]
    dsimp only
    obtain ⟨j1, j2⟩ := ih (processEvent s e).1
    obtain ⟨k1, k2⟩ := processEvent_indices s e
    constructor
    · rw [filesOf_append, List.map_append, List.length_append, j1, k1, k2]
      have harr : s.recording_frame_index
            + (filesOf (processEvent s e).2).length + 1
          = s.recording_frame_index + 1
            + 1 * (filesOf (processEvent s e).2).length := by
        omega
      rw [harr, List.range'_append,
          Nat.add_comm (filesOf (processEvents (processEvent s e).1 es).2).length
            (filesOf (processEvent s e).2).length]
    · rw [filesOf_append, List.length_append, j2, k2]
      omega

/-- Per-event version of file well-formedness (lines and timestamp). -/
theorem processEvent_files_wf (s : CState) (e : EventCD) :
    ∀ fin ∈ (processEvent s e).2, ∀ fl, fin.file = some fl →
      fl.lines = fin.events.map lineOf ∧ fl.t0 = fin.t0 := by
  rcases hws : s.window_start with _ | st
  · by_cases hg : s.camera_width = 0 ∨ s.camera_height = 0
    · simp [processEvent, hws, hg]
    · have heval : processEvent s e
          = processCore
              { s with current_frame := mkFrame s.camera_height s.camera_width,
                       window_events := [], window_start := some e.t,
                       window_end := e.t + kWindowUs,
                       window_recording := s.recording_enabled } e := by
        simp [processEvent, hws, hg]
      rw [heval]
      intro fin hfin fl hfl
      have hwf := finalizeGo_files_wf e
        (finalizeFuel e
          { s with current_frame := mkFrame s.camera_height s.camera_width,
                   window_events := [], window_start := some e.t,
                   window_end := e.t + kWindowUs,
                   window_recording := s.recording_enabled })
        { s with current_frame := mkFrame s.camera_height s.camera_width,
                 window_events := [], window_start := some e.t,
                 window_end := e.t + kWindowUs,
                 window_recording := s.recording_enabled }
        fin hfin fl hfl
      exact ⟨hwf.1, hwf.2.1⟩
  · rw [processEvent_some s e st hws]
    intro fin hfin fl hfl
    have hwf := finalizeGo_files_wf e (finalizeFuel e s) s fin hfin fl hfl
    exact ⟨hwf.1, hwf.2.1⟩

theorem processEvents_files_wf :
    ∀ (es : List EventCD) (s : CState),
      ∀ fin ∈ (processEvents s es).2, ∀ fl, fin.file = some fl →
        fl.lines = fin.events.map lineOf ∧ fl.t0 = fin.t0 := by
  intro es
  induction es with
  | nil => intro s; simp [processEvents]
  | cons e es ih =>
    intro s
    rw [processEvents_cons]
    dsimp only
    intro fin hfin fl hfl
    rcases List.mem_append.mp hfin with hh | hh
    · exact processEvent_files_wf s e fin hh fl hfl
    · exact ih (processEvent s e).1 fin hh fl hfl

/-- Claim C6 counterexample: with recording enabled throughout (one
uninterrupted recording session), a session reset (camera off and on)
between two persisted windows makes the second file reuse index 1 and
window start 0, so the indices are not strictly increasing and the two
rendered paths are identical — a collision. -/
theorem file_naming_collision_on_reset :
    (filesOf (processTrace resetTraceInit resetTrace).2).map
        (fun f => f.index) = [1, 1]
    ∧ ¬ List.Pairwise (fun a b : OutputFile => a.index < b.index)
        (filesOf (processTrace resetTraceInit resetTrace).2)
    ∧ (filesOf (processTrace resetTraceInit resetTrace).2).map filePath
      = ["out/frame_000001_t0_0us.txt", "out/frame_000001_t0_0us.txt"] := by
  refine ⟨?_, ?_, ?_⟩ <;> decide

/-- Claim C6 (amended): during a recording session in which no session
reset occurs, persisted files carry consecutive, strictly increasing
indices (one past the counter onward), so their path keys (directory,
index, window start) are pairwise distinct — collision-free — and every
file holds exactly one (x, y) line per recorded event of its window,
stamped with that window's start time. -/
theorem persisted_file_naming (s : CState) (es : List EventCD) :
    (filesOf (processEvents s es).2).map (fun f => f.index)
      = List.range' (s.recording_frame_index + 1)
          (filesOf (processEvents s es).2).length
    ∧ List.Pairwise (fun a b : OutputFile => a.index < b.index)
        (filesOf (processEvents s es).2)
    ∧ List.Pairwise (fun a b : OutputFile => filePathKey a ≠ filePathKey b)
        (filesOf (processEvents s es).2)
    ∧ (∀ fin ∈ (processEvents s es).2, ∀ fl, fin.file = some fl →
        fl.lines = fin.events.map lineOf ∧ fl.t0 = fin.t0) := by
  obtain ⟨i1, i2⟩ := processEvents_indices es s
  have hlt : List.Pairwise (fun a b : OutputFile => a.index < b.index)
      (filesOf (processEvents s es).2) := by
    have hp : List.Pairwise (fun a b : Nat => a < b)
        ((filesOf (processEvents s es).2).map (fun f => f.index)) := by
      rw [i1]
      exact List.pairwise_lt_range' _ _
    exact List.pairwise_map.mp hp
  refine ⟨i1, hlt, ?_, processEvents_files_wf es s⟩
  refine List.Pairwise.imp ?_ hlt
  intro a b hab hk
  have hidx : a.index = b.index := congrArg (fun p => p.2.1) hk
  omega

/-- Concrete instance of persisted_file_naming: one recorded window
persisted from a fresh recording session gets index 1 with its window's
single event line. -/
theorem persisted_file_naming_witness :
    (filesOf (processEvents resetTraceInit
          [⟨1, 1, 0⟩, ⟨1, 1, 2500⟩]).2).map (fun f => f.index)
      = List.range' (resetTraceInit.recording_frame_index + 1)
          (filesOf (processEvents resetTraceInit
            [⟨1, 1, 0⟩, ⟨1, 1, 2500⟩]).2).length
    ∧ ({ dir := "out", index := 1, t0 := 0, lines := [(1, 1)] }
        : OutputFile).lines
      = ({ frame_index := 0, t0 := 0,
           frame := [[false, false, false, false],
                     [false, true, false, false],
                     [false, false, false, false],
                     [false, false, false, false]],
           events := [⟨1, 1, 0⟩],
           file := some { dir := "out", index := 1, t0 := 0,
                          lines := [(1, 1)] } } : Finalized).events.map lineOf :=
  ⟨(persisted_file_naming resetTraceInit [⟨1, 1, 0⟩, ⟨1, 1, 2500⟩]).1,
   ((persisted_file_naming resetTraceInit [⟨1, 1, 0⟩, ⟨1, 1, 2500⟩]).2.2.2
      { frame_index := 0, t0 := 0,
        frame := [[false, false, false, false],
                  [false, true, false, false],
                  [false, false, false, false],
                  [false, false, false, false]],
        events := [⟨1, 1, 0⟩],
        file := some { dir := "out", index := 1, t0 := 0,
                       lines := [(1, 1)] } }
      (by decide)
      { dir := "out", index := 1, t0 := 0, lines := [(1, 1)] }
      rfl).1⟩

end Evs2msLogger
